import Mathlib

/-!
Shallow embedding of the Semantic-RAG knowledge-engine ingestion pipeline
(the Python sources under src/), together with theorems settling the
specification claims about the idempotency ledger, chunking strategies and
their dispatcher, the loader registry, collection classification, filter
construction and degradation behaviour.

Conventions of the embedding:
. Python strings are lists of characters (the ASCII fragment of Python
  string semantics suffices for every operation the sources perform);
. a document/unit metadata dict is a structure over the fixed metadata
  vocabulary the loaders emit;
. the sqlite ledger is a list of rows with primary-key semantics made
  explicit; the row timestamp that sqlite fills in is passed as `now`;
. external capabilities (LLM answers, embedding backends, the LangChain
  text splitter) are inputs or function parameters, and fallible calls
  return `Except`.
-/

namespace Rag

/-- Python string model: a list of characters. -/
abbrev Str := List Char

/-- The whitespace set of Python `str.strip()` (ASCII fragment):
space, tab, line feed, carriage return, vertical tab, form feed. -/
def pyIsSpace (c : Char) : Bool :=
  c.toNat = 32 || c.toNat = 9 || c.toNat = 10 || c.toNat = 13 ||
  c.toNat = 11 || c.toNat = 12

/-- Python `s.strip(chars)`: drop leading and trailing characters
satisfying `p`. -/
def pyStripWith (p : Char → Bool) (s : Str) : Str :=
  ((s.dropWhile p).reverse.dropWhile p).reverse

/-- Python `s.strip()` with no argument. -/
def pyStrip (s : Str) : Str :=
  pyStripWith pyIsSpace s

/-- A word character in the sense of the regex class used by the sources
(ASCII fragment): letters, digits and the underscore. -/
def isWordChar (c : Char) : Bool :=
  (65 ≤ c.toNat && c.toNat ≤ 90) || (97 ≤ c.toNat && c.toNat ≤ 122) ||
  (48 ≤ c.toNat && c.toNat ≤ 57) || c.toNat = 95

/-- Python `str.lower()` on one character (ASCII fragment). -/
def pyLowerChar (c : Char) : Char :=
  if 65 ≤ c.toNat ∧ c.toNat ≤ 90 then Char.ofNat (c.toNat + 32) else c

/-- Python `str.upper()` on one character (ASCII fragment). -/
def pyUpperChar (c : Char) : Char :=
  if 97 ≤ c.toNat ∧ c.toNat ≤ 122 then Char.ofNat (c.toNat - 32) else c

/-- Python `str.lower()`. -/
def pyLower (s : Str) : Str := s.map pyLowerChar

/-- Python `str.upper()`. -/
def pyUpper (s : Str) : Str := s.map pyUpperChar

/-- Python `x in s` substring test. -/
def containsSub (pat s : Str) : Bool := decide (pat <:+: s)

/-! ## Data model: units/documents with the fixed metadata vocabulary -/

/-- Metadata dict of a unit. Each field models the Python dict key of the
same name; `sectionName` models the key `section` (a Lean keyword).
`none` models an absent key, and the `Bool` fields model keys that the
loaders only ever set to `True` (absent defaults to falsy). -/
structure Metadata where
  source : Option Str := none
  page : Option Nat := none
  loader : Option Str := none
  is_table : Bool := false
  slide : Option Nat := none
  is_heading : Bool := false
  heading_level : Option Nat := none
  sectionName : Option Str := none
  table_index : Option Nat := none
  deriving DecidableEq, Repr

/-- A LangChain `Document`: page content plus metadata. -/
structure Doc where
  content : Str
  meta : Metadata
  deriving DecidableEq, Repr

/-! ## Idempotency store (src/app/idempotency.py)

The sqlite table `processed_hashes(content_hash TEXT PRIMARY KEY,
filename, collection_name, created_at)` is modelled as a list of rows in
insertion order; `INSERT OR IGNORE` on the primary key becomes an
insert-if-absent on the `content_hash` field. -/

/-- One row of the `processed_hashes` ledger. -/
structure LedgerRow where
  content_hash : String
  filename : String
  collection_name : String
  created_at : String
  deriving DecidableEq, Repr

/-- The durable ledger state. -/
abbrev Ledger := List LedgerRow

/-- `is_processed(db_path, content_hash)`:
`SELECT 1 FROM processed_hashes WHERE content_hash = ?` is non-empty. -/
def is_processed (db : Ledger) (contentHash : String) : Bool :=
  db.any (fun r => r.content_hash == contentHash)

/-- `record_processed(db_path, content_hash, filename, collection_name)`:
`INSERT OR IGNORE INTO processed_hashes (content_hash, filename,
collection_name) VALUES (?, ?, ?)`; `collection_name or ""` maps `None`
to the empty string; `created_at` is the sqlite-side timestamp `now`. -/
def record_processed (db : Ledger) (contentHash : String) (filename : String)
    (collectionName : Option String) (now : String) : Ledger :=
  if db.any (fun r => r.content_hash == contentHash) then db
  else db ++ [⟨contentHash, filename, collectionName.getD "", now⟩]

/-! ## Table chunker (src/app/chunkers/table_chunker.py) -/

/-- `TableChunker.chunk`: one output per input row; rows longer than
`max_row_chars` are truncated to `content[:max_row_chars] + "..."`,
never split. -/
def tableChunk (maxRowChars : Nat) (documents : List Doc) : List Doc :=
  documents.map (fun doc =>
    let content := doc.content
    let content2 :=
      if content.length > maxRowChars then content.take maxRowChars ++ "...".toList
      else content
    { content := content2, meta := doc.meta })

/-! ## Claim C2 -/

/-- Claim C2: idempotency-store roundtrip. For a fingerprint `x` absent
from the store, `is_processed` is false; after `record_processed` it is
true; recording the same fingerprint again is a no-op that raises no
error (the model is total) and leaves exactly one ledger row for `x`. -/
theorem claim_c2_idempotency_roundtrip
    (db : Ledger) (x fn now fn2 now2 : String) (coll coll2 : Option String)
    (habs : ∀ r ∈ db, r.content_hash ≠ x) :
    is_processed db x = false
    ∧ is_processed (record_processed db x fn coll now) x = true
    ∧ record_processed (record_processed db x fn coll now) x fn2 coll2 now2
        = record_processed db x fn coll now
    ∧ (record_processed db x fn coll now).countP
        (fun r => r.content_hash == x) = 1 := by
  have hany : (db.any fun r => r.content_hash == x) = false := by
    rw [List.any_eq_false]
    intro r hr
    simpa using habs r hr
  have hrec : record_processed db x fn coll now
      = db ++ [⟨x, fn, coll.getD "", now⟩] := by
    simp [record_processed, hany]
  have hany2 : ((db ++ [(⟨x, fn, coll.getD "", now⟩ : LedgerRow)]).any
      fun r => r.content_hash == x) = true := by
    simp [List.any_append]
  refine ⟨by simp [is_processed, hany], ?_, ?_, ?_⟩
  · rw [hrec]
    simp [is_processed, hany2]
  · rw [hrec]
    simp [record_processed, hany2]
  · rw [hrec, List.countP_append]
    have h0 : db.countP (fun r => r.content_hash == x) = 0 := by
      rw [List.countP_eq_zero]
      intro r hr
      simpa using habs r hr
    simp [h0]

/-- Witness for C2 at a concrete store state and fingerprint. -/
theorem claim_c2_witness :
    is_processed ([] : Ledger) "abc123" = false
    ∧ is_processed
        (record_processed [] "abc123" "test.pdf" (some "policy_collection") "t0")
        "abc123" = true
    ∧ record_processed
        (record_processed [] "abc123" "test.pdf" (some "policy_collection") "t0")
        "abc123" "again.pdf" (some "policy_collection") "t1"
        = record_processed [] "abc123" "test.pdf" (some "policy_collection") "t0"
    ∧ (record_processed [] "abc123" "test.pdf" (some "policy_collection") "t0").countP
        (fun r => r.content_hash == "abc123") = 1 :=
  claim_c2_idempotency_roundtrip [] "abc123" "test.pdf" "t0" "again.pdf" "t1"
    (some "policy_collection") (some "policy_collection") (by simp)

/-! ## Claim C3 -/

/-- Claim C3: the verbatim-row strategy emits exactly one chunk per input
row; content of length at most `max_row_chars` is unchanged, longer
content becomes a single chunk of length `max_row_chars + 3` ending in
an ellipsis. -/
theorem claim_c3_table_chunker_verbatim_row (maxRowChars : Nat) (documents : List Doc) :
    (tableChunk maxRowChars documents).length = documents.length
    ∧ List.Forall₂ (fun d out =>
        out.meta = d.meta
        ∧ (d.content.length ≤ maxRowChars → out.content = d.content)
        ∧ (maxRowChars < d.content.length →
            out.content.length = maxRowChars + 3
            ∧ "...".toList <:+ out.content))
      documents (tableChunk maxRowChars documents) := by
  constructor
  · simp [tableChunk]
  · rw [tableChunk, List.forall₂_map_right_iff, List.forall₂_same]
    intro d _
    by_cases hlen : d.content.length > maxRowChars
    · refine ⟨by simp [hlen], fun hle => absurd hlen (by omega), fun _ => ?_⟩
      constructor
      · simp [hlen, List.length_take]
        omega
      · simp only [hlen, if_pos]
        exact List.suffix_append _ _
    · exact ⟨by simp [hlen], fun _ => by simp [hlen], fun hgt => absurd hgt hlen⟩

/-! ## Chunker strategy set and dispatcher (src/app/chunkers/) -/

/-- LangChain `split_documents` of a text splitter (external library):
each document's content is split by `splitText` and every piece keeps
the document's metadata. -/
def splitDocuments (splitText : Str → List Str) (documents : List Doc) : List Doc :=
  documents.flatMap (fun d => (splitText d.content).map (fun t => { content := t, meta := d.meta }))

/-- `RecursiveChunker.chunk` (src/app/chunkers/recursive_chunker.py):
empty input short-circuits, otherwise the held
`RecursiveCharacterTextSplitter` (external, passed as `splitText`) is
applied document-wise. -/
def recursiveChunk (splitText : Str → List Str) (documents : List Doc) : List Doc :=
  if documents.isEmpty then [] else splitDocuments splitText documents

/-- `SlideChunker.chunk` (src/app/chunkers/slide_chunker.py): identity. -/
def slideChunk (documents : List Doc) : List Doc := documents

/-- `(doc.metadata or \x7b\x7d).get("section", "")` in the structural
chunker. -/
def sectionKeyOf (d : Doc) : Str := (d.meta.sectionName).getD []

/-- First-seen order of section keys, as produced by the `defaultdict`
grouping loop of `StructuralChunker.chunk`. -/
def sectionKeysOf (documents : List Doc) : List Str :=
  documents.foldl
    (fun acc d => if acc.contains (sectionKeyOf d) then acc else acc ++ [sectionKeyOf d]) []

/-- `StructuralChunker.chunk` (src/app/chunkers/structural_chunker.py):
group by section key in first-seen order, join each group's contents
with a blank line, split the joined text, and stamp each piece with the
first group member's metadata updated with the section key. -/
def structuralChunk (splitText : Str → List Str) (documents : List Doc) : List Doc :=
  if documents.isEmpty then []
  else
    (sectionKeysOf documents).flatMap (fun s =>
      match documents.filter (fun d => sectionKeyOf d == s) with
      | [] => []
      | g0 :: gs =>
        let combined := List.intercalate "\n\n".toList ((g0 :: gs).map (fun d => d.content))
        (splitText combined).map (fun t =>
          { content := t, meta := { g0.meta with sectionName := some s } }))

/-- `SemanticChunker.chunk` (src/app/chunkers/semantic_chunker.py).
`libAvailable` models whether `langchain_experimental` imports (the only
exception the `except ImportError` arm catches); `semanticSplitDoc`
models the library splitter built over the embedding capability, whose
call can fail (`Except.error`) when the embedding backend is
unreachable, and such an error propagates out of the per-document loop.
With the library unavailable the strategy degrades to
`RecursiveChunker(1000, 200)`. -/
def semanticChunk (libAvailable : Bool)
    (semanticSplitDoc : Doc → Except String (List Doc))
    (splitTextFam : Nat → Nat → Str → List Str)
    (documents : List Doc) : Except String (List Doc) :=
  if documents.isEmpty then .ok []
  else if libAvailable then
    documents.foldlM (fun acc d => do
      let chunks ← semanticSplitDoc d
      pure (acc ++ chunks)) []
  else
    .ok (recursiveChunk (splitTextFam 1000 200) documents)

/-- Parted accumulator of the dispatcher loop: the five routing buckets. -/
structure PartedDocs where
  tables : List Doc
  slides : List Doc
  headings : List Doc
  structural : List Doc
  prose : List Doc
  deriving DecidableEq, Repr

/-- Truthiness of `meta.get("is_table")`. -/
def metaTableTruthy (m : Metadata) : Bool := m.is_table

/-- Truthiness of `meta.get("slide")`: key present with non-zero value. -/
def metaSlideTruthy (m : Metadata) : Bool :=
  match m.slide with
  | some n => !(n == 0)
  | none => false

/-- Truthiness of `meta.get("is_heading")`. -/
def metaHeadingTruthy (m : Metadata) : Bool := m.is_heading

/-- Truthiness of `meta.get("section")`: key present with a non-empty
string value. -/
def metaSectionTruthy (m : Metadata) : Bool :=
  match m.sectionName with
  | some s => !s.isEmpty
  | none => false

/-- One iteration of the routing loop in `ChunkerDispatcher.chunk`
(src/app/chunkers/dispatcher.py, lines 54-65). -/
def partitionStep (p : PartedDocs) (doc : Doc) : PartedDocs :=
  if metaTableTruthy doc.meta then { p with tables := p.tables ++ [doc] }
  else if metaSlideTruthy doc.meta then { p with slides := p.slides ++ [doc] }
  else if metaHeadingTruthy doc.meta then { p with headings := p.headings ++ [doc] }
  else if metaSectionTruthy doc.meta then { p with structural := p.structural ++ [doc] }
  else { p with prose := p.prose ++ [doc] }

/-- The full routing loop of `ChunkerDispatcher.chunk`. -/
def partitionDocs (documents : List Doc) : PartedDocs :=
  documents.foldl partitionStep ⟨[], [], [], [], []⟩

/-- The five routing outcomes. -/
inductive RouteGroup
  | table
  | slide
  | heading
  | structural
  | prose
  deriving DecidableEq, Repr

/-- The first-matching-rule routing decision realized by the dispatcher
loop for a single unit. -/
def routeOf (m : Metadata) : RouteGroup :=
  if metaTableTruthy m then .table
  else if metaSlideTruthy m then .slide
  else if metaHeadingTruthy m then .heading
  else if metaSectionTruthy m then .structural
  else .prose

/-- The units routed to group `g`, in input order. -/
def routedGroup (documents : List Doc) (g : RouteGroup) : List Doc :=
  documents.filter (fun d => routeOf d.meta == g)

/-- `ChunkerDispatcher.chunk` (src/app/chunkers/dispatcher.py): route,
then concatenate table chunks, slide chunks, pass-through headings,
structural chunks and prose chunks. The dispatcher holds
`TableChunker()` with its default `max_row_chars = 2000`, and
`self._semantic` is non-None exactly when `use_semantic` is set, so the
prose branch condition reduces to `use_semantic` and the threshold
comparison. A failure raised by the semantic chunker propagates. -/
def dispatcherChunk
    (splitTextFam : Nat → Nat → Str → List Str)
    (libAvailable : Bool)
    (semanticSplitDoc : Doc → Except String (List Doc))
    (chunkSize chunkOverlap : Nat) (useSemantic : Bool) (semanticThreshold : Nat)
    (documents : List Doc) : Except String (List Doc) :=
  let p := partitionDocs documents
  let tablesOut := tableChunk 2000 p.tables
  let slidesOut := slideChunk p.slides
  let structuralOut := structuralChunk (splitTextFam chunkSize chunkOverlap) p.structural
  let totalProseChars := (p.prose.map (fun d => d.content.length)).sum
  if useSemantic = true ∧ semanticThreshold < totalProseChars then do
    let sem ← semanticChunk libAvailable semanticSplitDoc splitTextFam p.prose
    pure (tablesOut ++ slidesOut ++ p.headings ++ structuralOut ++ sem)
  else
    .ok (tablesOut ++ slidesOut ++ p.headings ++ structuralOut
      ++ recursiveChunk (splitTextFam chunkSize chunkOverlap) p.prose)

/-- `partitionStep` rephrased through the routing decision `routeOf`. -/
theorem partitionStep_cases (p : PartedDocs) (d : Doc) :
    partitionStep p d =
      match routeOf d.meta with
      | .table => { p with tables := p.tables ++ [d] }
      | .slide => { p with slides := p.slides ++ [d] }
      | .heading => { p with headings := p.headings ++ [d] }
      | .structural => { p with structural := p.structural ++ [d] }
      | .prose => { p with prose := p.prose ++ [d] } := by
  unfold partitionStep routeOf
  split_ifs <;> rfl

/-- The routing loop is the ordered filter by `routeOf`, bucket by
bucket, for any starting accumulator. -/
theorem foldl_partitionStep_eq (documents : List Doc) (acc : PartedDocs) :
    documents.foldl partitionStep acc =
      ⟨acc.tables ++ routedGroup documents .table,
       acc.slides ++ routedGroup documents .slide,
       acc.headings ++ routedGroup documents .heading,
       acc.structural ++ routedGroup documents .structural,
       acc.prose ++ routedGroup documents .prose⟩ := by
  induction documents generalizing acc with
  | nil => simp [routedGroup]
  | cons d ds ih =>
    rw [List.foldl_cons, ih, partitionStep_cases]
    cases hroute : routeOf d.meta <;>
      simp [routedGroup, List.filter_cons, hroute, List.append_assoc]

/-- The dispatcher's buckets are the ordered filters of the input by the
first matching routing rule. -/
theorem partitionDocs_eq_filters (documents : List Doc) :
    partitionDocs documents =
      ⟨routedGroup documents .table, routedGroup documents .slide,
       routedGroup documents .heading, routedGroup documents .structural,
       routedGroup documents .prose⟩ := by
  rw [partitionDocs, foldl_partitionStep_eq]
  simp

/-- Every unit lands in exactly one bucket: the bucket sizes add up to
the input size. -/
theorem routedGroup_length_sum (documents : List Doc) :
    (routedGroup documents .table).length + (routedGroup documents .slide).length
    + (routedGroup documents .heading).length + (routedGroup documents .structural).length
    + (routedGroup documents .prose).length = documents.length := by
  induction documents with
  | nil => simp [routedGroup]
  | cons d ds ih =>
    simp only [routedGroup, List.filter_cons] at ih ⊢
    cases hr : routeOf d.meta <;> simp [hr] <;> omega

/-! ## Claim C4 -/

/-- A unit of the kind the Markdown loader emits for text before the
first heading: the metadata key `section` is present but holds the empty
string. -/
def sectionPresentButEmptyDoc : Doc :=
  { content := "Intro paragraph".toList, meta := { sectionName := some [] } }

/-- Claim C4 counterexample: the claim routes on key presence
(`section` present sends the unit to the section-bounded group), but the
dispatcher loop tests Python truthiness, so a unit whose `section` key
is present with an empty-string value is routed to prose, not to the
structural bucket. -/
theorem claim_c4_counterexample :
    (partitionDocs [sectionPresentButEmptyDoc]).structural = []
    ∧ (partitionDocs [sectionPresentButEmptyDoc]).prose = [sectionPresentButEmptyDoc]
    ∧ sectionPresentButEmptyDoc.meta.sectionName.isSome = true
    ∧ routeOf sectionPresentButEmptyDoc.meta = .prose := by
  refine ⟨rfl, rfl, rfl, rfl⟩

/-- Claim C4 (amended): with the routing predicates read as the code's
truthiness tests (`is_table` truthy, then `slide` present and non-zero,
then `is_heading` truthy, then `section` present and non-empty, then
prose), every unit is assigned to exactly one group by the first
matching rule, the groups preserve input order (they are ordered
filters), and the dispatcher output is the concatenation of table
chunks, slide chunks, pass-through headings, section-bounded chunks and
prose chunks. -/
theorem claim_c4_amended_dispatch_order
    (splitTextFam : Nat → Nat → Str → List Str) (libAvailable : Bool)
    (semanticSplitDoc : Doc → Except String (List Doc))
    (chunkSize chunkOverlap : Nat) (useSemantic : Bool) (semanticThreshold : Nat)
    (documents : List Doc) (semOut : List Doc) :
    ((routedGroup documents .table).length + (routedGroup documents .slide).length
      + (routedGroup documents .heading).length + (routedGroup documents .structural).length
      + (routedGroup documents .prose).length = documents.length)
    ∧ partitionDocs documents =
        ⟨routedGroup documents .table, routedGroup documents .slide,
         routedGroup documents .heading, routedGroup documents .structural,
         routedGroup documents .prose⟩
    ∧ (¬(useSemantic = true ∧
          semanticThreshold < ((routedGroup documents .prose).map (fun d => d.content.length)).sum) →
        dispatcherChunk splitTextFam libAvailable semanticSplitDoc
            chunkSize chunkOverlap useSemantic semanticThreshold documents
          = .ok (tableChunk 2000 (routedGroup documents .table)
              ++ slideChunk (routedGroup documents .slide)
              ++ routedGroup documents .heading
              ++ structuralChunk (splitTextFam chunkSize chunkOverlap) (routedGroup documents .structural)
              ++ recursiveChunk (splitTextFam chunkSize chunkOverlap) (routedGroup documents .prose)))
    ∧ ((useSemantic = true ∧
          semanticThreshold < ((routedGroup documents .prose).map (fun d => d.content.length)).sum) →
        semanticChunk libAvailable semanticSplitDoc splitTextFam (routedGroup documents .prose)
            = .ok semOut →
        dispatcherChunk splitTextFam libAvailable semanticSplitDoc
            chunkSize chunkOverlap useSemantic semanticThreshold documents
          = .ok (tableChunk 2000 (routedGroup documents .table)
              ++ slideChunk (routedGroup documents .slide)
              ++ routedGroup documents .heading
              ++ structuralChunk (splitTextFam chunkSize chunkOverlap) (routedGroup documents .structural)
              ++ semOut)) := by
  refine ⟨routedGroup_length_sum documents, partitionDocs_eq_filters documents, ?_, ?_⟩
  · intro hcond
    rw [dispatcherChunk]
    simp only [partitionDocs_eq_filters]
    rw [if_neg hcond]
  · intro hcond hsem
    rw [dispatcherChunk]
    simp only [partitionDocs_eq_filters]
    rw [if_pos hcond, hsem]
    rfl

/-- A concrete mixed unit list covering all five routing groups. -/
def mixedUnits : List Doc :=
  [⟨"r1".toList, { is_table := true }⟩,
   ⟨"s1".toList, { slide := some 1 }⟩,
   ⟨"h1".toList, { is_heading := true }⟩,
   ⟨"b1".toList, { sectionName := some "Leave".toList }⟩,
   ⟨"p1".toList, {}⟩]

/-- A degenerate splitter family standing in for the external text
splitter in concrete witnesses: it returns the text whole. -/
def idSplitFam : Nat → Nat → Str → List Str := fun _ _ s => [s]

/-- A semantic splitter stand-in that keeps every document whole. -/
def okSplitDoc : Doc → Except String (List Doc) := fun d => .ok [d]

/-- Witness for C4 (amended) on the concrete mixed unit list, on the
non-semantic path. -/
theorem claim_c4_amended_witness :
    ((routedGroup mixedUnits .table).length + (routedGroup mixedUnits .slide).length
      + (routedGroup mixedUnits .heading).length + (routedGroup mixedUnits .structural).length
      + (routedGroup mixedUnits .prose).length = mixedUnits.length)
    ∧ partitionDocs mixedUnits =
        ⟨routedGroup mixedUnits .table, routedGroup mixedUnits .slide,
         routedGroup mixedUnits .heading, routedGroup mixedUnits .structural,
         routedGroup mixedUnits .prose⟩
    ∧ (¬(false = true ∧
          3000 < ((routedGroup mixedUnits .prose).map (fun d => d.content.length)).sum) →
        dispatcherChunk idSplitFam true okSplitDoc 1000 200 false 3000 mixedUnits
          = .ok (tableChunk 2000 (routedGroup mixedUnits .table)
              ++ slideChunk (routedGroup mixedUnits .slide)
              ++ routedGroup mixedUnits .heading
              ++ structuralChunk (idSplitFam 1000 200) (routedGroup mixedUnits .structural)
              ++ recursiveChunk (idSplitFam 1000 200) (routedGroup mixedUnits .prose)))
    ∧ ((false = true ∧
          3000 < ((routedGroup mixedUnits .prose).map (fun d => d.content.length)).sum) →
        semanticChunk true okSplitDoc idSplitFam (routedGroup mixedUnits .prose) = .ok [] →
        dispatcherChunk idSplitFam true okSplitDoc 1000 200 false 3000 mixedUnits
          = .ok (tableChunk 2000 (routedGroup mixedUnits .table)
              ++ slideChunk (routedGroup mixedUnits .slide)
              ++ routedGroup mixedUnits .heading
              ++ structuralChunk (idSplitFam 1000 200) (routedGroup mixedUnits .structural)
              ++ [])) :=
  claim_c4_amended_dispatch_order idSplitFam true okSplitDoc 1000 200 false 3000 mixedUnits []

/-! ## Claim C9 -/

/-- A semantic-splitter stand-in for an unreachable embedding backend:
every call fails, as an embedding HTTP call does when the backend is
down. -/
def embedDownSplit : Doc → Except String (List Doc) :=
  fun _ => .error "embedding backend unreachable"

/-- Claim C9 counterexample: with the splitter library importable but
the embedding capability failing at call time, `SemanticChunker.chunk`
propagates the failure out of the chunking stage instead of degrading to
recursive-character splitting (`except ImportError` does not catch it). -/
theorem claim_c9_counterexample :
    semanticChunk true embedDownSplit (fun _ _ s => [s])
        [⟨"Long prose unit.".toList, {}⟩]
      = .error "embedding backend unreachable"
    ∧ semanticChunk true embedDownSplit (fun _ _ s => [s])
        [⟨"Long prose unit.".toList, {}⟩]
      ≠ .ok (recursiveChunk (idSplitFam 1000 200)
          [⟨"Long prose unit.".toList, {}⟩]) := by
  refine ⟨rfl, ?_⟩
  intro h
  exact Except.noConfusion h

/-- Claim C9 (amended): the graceful degradation happens exactly when
the splitter library is unavailable at import time: then the strategy
returns the recursive-character split with the hard-coded
`RecursiveChunker(1000, 200)` and never fails, whatever the embedding
capability would have done. -/
theorem claim_c9_amended_degrade_on_import_error
    (semanticSplitDoc : Doc → Except String (List Doc))
    (splitTextFam : Nat → Nat → Str → List Str)
    (documents : List Doc) :
    semanticChunk false semanticSplitDoc splitTextFam documents
      = .ok (recursiveChunk (splitTextFam 1000 200) documents) := by
  by_cases h : documents.isEmpty
  · have hnil : documents = [] := by
      cases documents with
      | nil => rfl
      | cons d ds => simp at h
    subst hnil
    simp [semanticChunk, recursiveChunk]
  · simp [semanticChunk, h, recursiveChunk]

/-! ## Filter predicate construction (src/app/schema_registry.py) -/

/-- A JSON-ish scalar value as handled by the filter builder. `vnum`
stands for JSON numbers, which the code carries around opaquely (no
arithmetic is ever performed on them). -/
inductive PyVal
  | vnone
  | vstr (s : Str)
  | vnum (n : Int)
  deriving DecidableEq, Repr

/-- The drop test of `filters_to_chroma_where`:
`v is None or (isinstance(v, str) and not v.strip())`. -/
def droppedValue (v : PyVal) : Bool :=
  match v with
  | .vnone => true
  | .vstr s => (pyStrip s).isEmpty
  | .vnum _ => false

/-- One `\x7bfield: \x7b"$eq": value\x7d\x7d` dict. -/
structure EqClause where
  field : Str
  value : PyVal
  deriving DecidableEq, Repr

/-- A Chroma where clause as built by the code: a single equality dict,
or an `$and` list of equality dicts. -/
inductive ChromaWhere
  | single (c : EqClause)
  | conj (cs : List EqClause)
  deriving DecidableEq, Repr

/-- The `where` list accumulated by the loop in
`filters_to_chroma_where`; the input dict is an association list in
insertion order, as Python dicts are. -/
def whereListOf (filters : List (Str × PyVal)) : List EqClause :=
  filters.foldl
    (fun acc kv => if droppedValue kv.2 then acc else acc ++ [EqClause.mk kv.1 kv.2]) []

/-- `filters_to_chroma_where` (src/app/schema_registry.py, lines
124-139): drop `None`/blank-string values; no survivors yields `None`,
one survivor yields its equality dict, several yield an `$and`. -/
def filters_to_chroma_where (filters : List (Str × PyVal)) : Option ChromaWhere :=
  match whereListOf filters with
  | [] => none
  | [c] => some (.single c)
  | cs => some (.conj cs)

/-- The accumulation loop is filter-then-map, for any accumulator. -/
theorem whereListOf_foldl_eq (filters : List (Str × PyVal)) (acc : List EqClause) :
    filters.foldl
        (fun acc kv => if droppedValue kv.2 then acc else acc ++ [EqClause.mk kv.1 kv.2]) acc
      = acc ++ (filters.filter (fun kv => !droppedValue kv.2)).map
          (fun kv => EqClause.mk kv.1 kv.2) := by
  induction filters generalizing acc with
  | nil => simp
  | cons kv rest ih =>
    rw [List.foldl_cons, ih, List.filter_cons]
    by_cases h : droppedValue kv.2 <;> simp [h]

/-- `whereListOf` in closed form. -/
theorem whereListOf_eq (filters : List (Str × PyVal)) :
    whereListOf filters
      = (filters.filter (fun kv => !droppedValue kv.2)).map
          (fun kv => EqClause.mk kv.1 kv.2) := by
  rw [whereListOf, whereListOf_foldl_eq]
  simp

/-! ## Claim C7 -/

/-- Claim C7: after dropping entries whose value is `None` or a blank
string, an empty mapping yields no predicate, a single surviving field
yields its equality clause, and two or more surviving fields yield the
`$and` of their equality clauses, in input order. -/
theorem claim_c7_filter_predicate_construction
    (filters : List (Str × PyVal)) (k : Str) (v : PyVal) :
    (filters.filter (fun kv => !droppedValue kv.2) = [] →
      filters_to_chroma_where filters = none)
    ∧ (filters.filter (fun kv => !droppedValue kv.2) = [(k, v)] →
      filters_to_chroma_where filters = some (.single ⟨k, v⟩))
    ∧ (2 ≤ (filters.filter (fun kv => !droppedValue kv.2)).length →
      filters_to_chroma_where filters = some (.conj
        ((filters.filter (fun kv => !droppedValue kv.2)).map
          (fun kv => EqClause.mk kv.1 kv.2)))) := by
  refine ⟨?_, ?_, ?_⟩
  · intro h
    rw [filters_to_chroma_where, whereListOf_eq, h]
    rfl
  · intro h
    rw [filters_to_chroma_where, whereListOf_eq, h]
    rfl
  · intro h
    rw [filters_to_chroma_where, whereListOf_eq]
    rcases hk : filters.filter (fun kv => !droppedValue kv.2) with _ | ⟨a, _ | ⟨b, rest⟩⟩
    · rw [hk] at h
      simp at h
    · rw [hk] at h
      simp at h
    · rw [hk]
      rfl

/-- Witness for C7: the spec's two-field example with a dropped `None`
entry. -/
theorem claim_c7_witness :
    ([("city".toList, PyVal.vstr "NY".toList),
      ("department".toList, PyVal.vstr "HR".toList),
      ("note".toList, PyVal.vnone)].filter (fun kv => !droppedValue kv.2) = [] →
      filters_to_chroma_where
        [("city".toList, PyVal.vstr "NY".toList),
         ("department".toList, PyVal.vstr "HR".toList),
         ("note".toList, PyVal.vnone)] = none)
    ∧ ([("city".toList, PyVal.vstr "NY".toList),
        ("department".toList, PyVal.vstr "HR".toList),
        ("note".toList, PyVal.vnone)].filter (fun kv => !droppedValue kv.2)
          = [("city".toList, PyVal.vstr "NY".toList)] →
      filters_to_chroma_where
        [("city".toList, PyVal.vstr "NY".toList),
         ("department".toList, PyVal.vstr "HR".toList),
         ("note".toList, PyVal.vnone)]
        = some (.single ⟨"city".toList, PyVal.vstr "NY".toList⟩))
    ∧ (2 ≤ ([("city".toList, PyVal.vstr "NY".toList),
        ("department".toList, PyVal.vstr "HR".toList),
        ("note".toList, PyVal.vnone)].filter (fun kv => !droppedValue kv.2)).length →
      filters_to_chroma_where
        [("city".toList, PyVal.vstr "NY".toList),
         ("department".toList, PyVal.vstr "HR".toList),
         ("note".toList, PyVal.vnone)]
        = some (.conj
          (([("city".toList, PyVal.vstr "NY".toList),
             ("department".toList, PyVal.vstr "HR".toList),
             ("note".toList, PyVal.vnone)].filter (fun kv => !droppedValue kv.2)).map
            (fun kv => EqClause.mk kv.1 kv.2)))) :=
  claim_c7_filter_predicate_construction
    [("city".toList, PyVal.vstr "NY".toList),
     ("department".toList, PyVal.vstr "HR".toList),
     ("note".toList, PyVal.vnone)]
    "city".toList (PyVal.vstr "NY".toList)

/-! ## Query-side collection classification (src/app/ingestion.py) -/

/-- `re.sub(r"[^\w_]", "", s).strip().lower()`: the normalization
applied to the capability's answer and to each existing collection name
inside `classify_query_to_collection`. -/
def queryNameNorm (s : Str) : Str := pyLower (pyStrip (s.filter isWordChar))

/-- `classify_query_to_collection` (src/app/ingestion.py, lines 82-113).
The text-generation capability is modelled by its arbitrary answer
string `rawAnswer` (the value of `chain.invoke(...) or ""`; the user
query only feeds the prompt). `let`-bound intermediates of the Python
code are inlined. -/
def classify_query_to_collection (rawAnswer : Str) (existing : List Str) (fallback : Str) : Str :=
  if existing.isEmpty then fallback
  else if (pyStrip rawAnswer).isEmpty
      || pyUpper (pyStrip rawAnswer) == "UNCLASSIFIED".toList then fallback
  else if (queryNameNorm (pyStrip rawAnswer)).isEmpty
      || queryNameNorm (pyStrip rawAnswer) == "unclassified".toList then fallback
  else
    match existing.find? (fun col =>
        !(queryNameNorm col).isEmpty
        && queryNameNorm (pyStrip rawAnswer) == queryNameNorm col) with
    | some col => col
    | none => fallback

/-! ## Claim C6 -/

/-- Claim C6: query-side classification is fail-safe. Whatever the
capability answers, the result is an existing collection name or the
fallback sentinel, and a non-fallback result is an existing name whose
normalization matches the normalized answer. -/
theorem claim_c6_query_classification_fail_safe
    (rawAnswer fallback : Str) (existing : List Str) :
    (classify_query_to_collection rawAnswer existing fallback ∈ existing
      ∨ classify_query_to_collection rawAnswer existing fallback = fallback)
    ∧ (classify_query_to_collection rawAnswer existing fallback ≠ fallback →
        classify_query_to_collection rawAnswer existing fallback ∈ existing
        ∧ queryNameNorm (classify_query_to_collection rawAnswer existing fallback)
            = queryNameNorm (pyStrip rawAnswer)
        ∧ (queryNameNorm (classify_query_to_collection rawAnswer existing fallback)).isEmpty
            = false) := by
  unfold classify_query_to_collection
  split
  · exact ⟨Or.inr rfl, fun hne => absurd rfl hne⟩
  · split
    · exact ⟨Or.inr rfl, fun hne => absurd rfl hne⟩
    · split
      · exact ⟨Or.inr rfl, fun hne => absurd rfl hne⟩
      · cases hfind : existing.find? (fun col =>
            !(queryNameNorm col).isEmpty
            && queryNameNorm (pyStrip rawAnswer) == queryNameNorm col) with
        | none =>
          exact ⟨Or.inr rfl, fun hne => absurd rfl hne⟩
        | some col =>
          have hmem := List.mem_of_find?_eq_some hfind
          have hpred := List.find?_some hfind
          rw [Bool.and_eq_true] at hpred
          obtain ⟨hne, heq⟩ := hpred
          have heq2 : queryNameNorm (pyStrip rawAnswer) = queryNameNorm col := by
            exact eq_of_beq heq
          refine ⟨Or.inl hmem, fun _ => ⟨hmem, heq2.symm, ?_⟩⟩
          rw [← heq2] at hne
          rw [← heq2]
          cases hq : (queryNameNorm (pyStrip rawAnswer)).isEmpty
          · rfl
          · rw [hq] at hne
            simp at hne

/-- Witness for C6 at a concrete answer and collection list. -/
theorem claim_c6_witness :
    (classify_query_to_collection " Policy_Collection ".toList
        ["policy_collection".toList, "product_catalog_collection".toList]
        "unclassified_knowledge".toList
      ∈ ["policy_collection".toList, "product_catalog_collection".toList]
      ∨ classify_query_to_collection " Policy_Collection ".toList
        ["policy_collection".toList, "product_catalog_collection".toList]
        "unclassified_knowledge".toList = "unclassified_knowledge".toList)
    ∧ (classify_query_to_collection " Policy_Collection ".toList
        ["policy_collection".toList, "product_catalog_collection".toList]
        "unclassified_knowledge".toList ≠ "unclassified_knowledge".toList →
        classify_query_to_collection " Policy_Collection ".toList
          ["policy_collection".toList, "product_catalog_collection".toList]
          "unclassified_knowledge".toList
          ∈ ["policy_collection".toList, "product_catalog_collection".toList]
        ∧ queryNameNorm (classify_query_to_collection " Policy_Collection ".toList
            ["policy_collection".toList, "product_catalog_collection".toList]
            "unclassified_knowledge".toList)
            = queryNameNorm (pyStrip " Policy_Collection ".toList)
        ∧ (queryNameNorm (classify_query_to_collection " Policy_Collection ".toList
            ["policy_collection".toList, "product_catalog_collection".toList]
            "unclassified_knowledge".toList)).isEmpty = false) :=
  claim_c6_query_classification_fail_safe " Policy_Collection ".toList
    "unclassified_knowledge".toList
    ["policy_collection".toList, "product_catalog_collection".toList]

/-! ## Ingestion-side collection-name normalization (src/app/ingestion.py) -/

/-- `re.sub(r"[^\w_]", " ", s)`: every non-word character becomes a
space. -/
def subNonWordToSpace (s : Str) : Str :=
  s.map (fun c => if isWordChar c then c else ' ')

/-- `s.replace(" ", "_")`. -/
def replaceSpaceUnderscore (s : Str) : Str :=
  s.map (fun c => if c == ' ' then '_' else c)

/-- `s.strip("_")`. -/
def stripUnderscores (s : Str) : Str :=
  pyStripWith (fun c => c == '_') s

/-- Line 73 of src/app/ingestion.py applied to the already-stripped
answer: `re.sub(r"[^\w_]", " ", name).strip().replace(" ", "_").strip("_")`. -/
def cleanName (s : Str) : Str :=
  stripUnderscores (replaceSpaceUnderscore (pyStrip (subNonWordToSpace s)))

/-- The normalization performed by `classify_document_to_collection`
(src/app/ingestion.py, lines 53-79) on the capability's raw answer:
strip; empty or UNCLASSIFIED answers yield the fallback; non-word
characters become separators, which become underscores, with edge
underscores stripped; re-check for empty/UNCLASSIFIED; lowercase; append
`_collection` when the name does not already contain it. -/
def normalize_collection_name (raw fallback : Str) : Str :=
  if (pyStrip raw).isEmpty || pyUpper (pyStrip raw) == "UNCLASSIFIED".toList then fallback
  else if (cleanName (pyStrip raw)).isEmpty
      || pyUpper (cleanName (pyStrip raw)) == "UNCLASSIFIED".toList then fallback
  else if containsSub "_collection".toList (pyLower (cleanName (pyStrip raw))) then
    pyLower (cleanName (pyStrip raw))
  else pyLower (cleanName (pyStrip raw)) ++ "_collection".toList

/-- `classify_document_to_collection` post-processing: the document
excerpt and the existing-collection list only feed the prompt of the
text-generation capability, whose raw answer is `rawAnswer`; the
returned name is its normalization. -/
def classify_document_to_collection (rawAnswer fallback : Str) : Str :=
  normalize_collection_name rawAnswer fallback

/-! ### Character-class facts -/

/-- `Char.ofNat` on a valid scalar below the surrogate range. -/
theorem toNat_ofNat_valid (n : Nat) (h : n < 55296) : (Char.ofNat n).toNat = n := by
  have hv : n.isValidChar := Or.inl h
  simp [Char.ofNat, hv, Char.ofNatAux, Char.toNat, UInt32.toNat, BitVec.toNat_ofNatLt]

/-- Word characters are not stripping whitespace. -/
theorem word_not_space (c : Char) (h : isWordChar c = true) : pyIsSpace c = false := by
  unfold isWordChar at h
  unfold pyIsSpace
  simp only [Bool.or_eq_true, Bool.and_eq_true, decide_eq_true_eq] at h
  simp only [Bool.or_eq_false_iff, decide_eq_false_iff_not]
  omega

/-- Word characters are not the space character. -/
theorem word_ne_space_char (c : Char) (h : isWordChar c = true) : (c == ' ') = false := by
  by_contra hb
  rw [Bool.not_eq_false] at hb
  rw [eq_of_beq hb] at h
  exact absurd h (by decide)

/-- Lowercasing keeps word characters word characters. -/
theorem pyLowerChar_word (c : Char) (h : isWordChar c = true) :
    isWordChar (pyLowerChar c) = true := by
  unfold pyLowerChar
  split_ifs with hu
  · have ht : (Char.ofNat (c.toNat + 32)).toNat = c.toNat + 32 :=
      toNat_ofNat_valid _ (by omega)
    unfold isWordChar
    simp only [Bool.or_eq_true, Bool.and_eq_true, decide_eq_true_eq, ht]
    omega
  · exact h

/-- Lowercasing a character is idempotent. -/
theorem pyLowerChar_idem (c : Char) : pyLowerChar (pyLowerChar c) = pyLowerChar c := by
  unfold pyLowerChar
  by_cases h1 : 65 ≤ c.toNat ∧ c.toNat ≤ 90
  · rw [if_pos h1]
    rw [if_neg (by rw [toNat_ofNat_valid _ (by omega)]; omega)]
  · rw [if_neg h1, if_neg h1]

/-- Lowercasing never produces an underscore from a non-underscore. -/
theorem pyLowerChar_ne_underscore (c : Char) (h : (c == '_') = false) :
    (pyLowerChar c == '_') = false := by
  unfold pyLowerChar
  by_cases h1 : 65 ≤ c.toNat ∧ c.toNat ≤ 90
  · rw [if_pos h1]
    by_contra hb
    rw [Bool.not_eq_false] at hb
    have ht := congrArg Char.toNat (eq_of_beq hb)
    rw [toNat_ofNat_valid _ (by omega)] at ht
    have h95 : ('_' : Char).toNat = 95 := rfl
    rw [h95] at ht
    omega
  · rw [if_neg h1]
    exact h

/-! ### List helpers for the strip/replace pipeline -/

/-- `dropWhile` is the identity when no element satisfies the test. -/
theorem dropWhile_eq_self_of_all (p : Char → Bool) (l : Str)
    (h : ∀ c ∈ l, p c = false) : l.dropWhile p = l := by
  cases l with
  | nil => rfl
  | cons a t => rw [List.dropWhile_cons, if_neg (by simp [h a (by simp)])]

/-- `map` is the identity when the function fixes every element. -/
theorem map_eq_self_of_all (f : Char → Char) (l : Str)
    (h : ∀ c ∈ l, f c = c) : l.map f = l := by
  induction l with
  | nil => rfl
  | cons a t ih =>
    rw [List.map_cons, h a (by simp), ih (fun c hc => h c (by simp [hc]))]

/-- Python strip is the identity when no character satisfies the test. -/
theorem pyStripWith_eq_self_of_all (p : Char → Bool) (l : Str)
    (h : ∀ c ∈ l, p c = false) : pyStripWith p l = l := by
  unfold pyStripWith
  rw [dropWhile_eq_self_of_all p l h,
    dropWhile_eq_self_of_all p l.reverse (fun c hc => h c (List.mem_reverse.mp hc)),
    List.reverse_reverse]

/-- Python strip is the identity when the end characters fail the test. -/
theorem pyStripWith_eq_self_of_ends (p : Char → Bool) (l : Str)
    (h1 : ∀ c, l.head? = some c → p c = false)
    (h2 : ∀ c, l.getLast? = some c → p c = false) : pyStripWith p l = l := by
  unfold pyStripWith
  cases l with
  | nil => rfl
  | cons a t =>
    have hpa : p a = false := h1 a rfl
    rw [List.dropWhile_cons, if_neg (by simp [hpa])]
    cases hrev : (a :: t).reverse with
    | nil => exact absurd (List.reverse_eq_nil_iff.mp hrev) (by simp)
    | cons b u =>
      have hb : (a :: t).getLast? = some b := by
        rw [← List.head?_reverse, hrev]
        rfl
      have hpb : p b = false := h2 b hb
      rw [List.dropWhile_cons, if_neg (by simp [hpb]), ← hrev, List.reverse_reverse]

/-- The head surviving `dropWhile` fails the test. -/
theorem head?_dropWhile_false (p : Char → Bool) (l : Str) (c : Char)
    (h : (l.dropWhile p).head? = some c) : p c = false := by
  induction l with
  | nil => simp at h
  | cons a t ih =>
    rw [List.dropWhile_cons] at h
    by_cases hpa : p a = true
    · rw [if_pos (by simp [hpa])] at h
      exact ih h
    · rw [if_neg (by simp [hpa])] at h
      simp only [List.head?_cons] at h
      injection h with hac
      rw [← hac]
      simp only [Bool.not_eq_true] at hpa
      exact hpa

/-- A non-empty suffix has the same last element as the whole list. -/
theorem getLast?_of_suffix (s t : Str) (hs : s <:+ t) (hne : s ≠ []) :
    s.getLast? = t.getLast? := by
  obtain ⟨pre, rfl⟩ := hs
  cases hrev : s.reverse with
  | nil => exact absurd (List.reverse_eq_nil_iff.mp hrev) hne
  | cons b u =>
    rw [← List.head?_reverse, ← List.head?_reverse, List.reverse_append, hrev]
    rfl

/-- The last element of an append with a non-empty right part. -/
theorem getLast?_append_right (l1 l2 : Str) (h : l2 ≠ []) :
    (l1 ++ l2).getLast? = l2.getLast? := by
  cases hrev : l2.reverse with
  | nil => exact absurd (List.reverse_eq_nil_iff.mp hrev) h
  | cons b u =>
    rw [← List.head?_reverse, ← List.head?_reverse, List.reverse_append, hrev]
    rfl

/-- The first character surviving Python strip fails the test. -/
theorem pyStripWith_head (p : Char → Bool) (l : Str) (c : Char)
    (h : (pyStripWith p l).head? = some c) : p c = false := by
  unfold pyStripWith at h
  rw [List.head?_reverse] at h
  have hne : List.dropWhile p (List.dropWhile p l).reverse ≠ [] := by
    intro h0
    rw [h0] at h
    simp at h
  rw [getLast?_of_suffix _ _ (List.dropWhile_suffix p) hne, List.getLast?_reverse] at h
  exact head?_dropWhile_false p l c h

/-- The last character surviving Python strip fails the test. -/
theorem pyStripWith_getLast (p : Char → Bool) (l : Str) (c : Char)
    (h : (pyStripWith p l).getLast? = some c) : p c = false := by
  unfold pyStripWith at h
  rw [List.getLast?_reverse] at h
  exact head?_dropWhile_false p _ c h

/-- Membership in a Python strip comes from the original list. -/
theorem mem_pyStripWith (p : Char → Bool) (l : Str) (c : Char)
    (h : c ∈ pyStripWith p l) : c ∈ l := by
  unfold pyStripWith at h
  have h1 := List.mem_reverse.mp h
  have h2 := (List.dropWhile_sublist p).subset h1
  have h3 := List.mem_reverse.mp h2
  exact (List.dropWhile_sublist p).subset h3

/-! ### The cleaned name is made of word characters with clean ends -/

/-- Every character of `cleanName s` is a word character. -/
theorem cleanName_all_word (s : Str) (c : Char) (h : c ∈ cleanName s) :
    isWordChar c = true := by
  unfold cleanName stripUnderscores at h
  have h1 := mem_pyStripWith _ _ _ h
  unfold replaceSpaceUnderscore at h1
  obtain ⟨x, hx, rfl⟩ := List.mem_map.mp h1
  by_cases hsp : (x == ' ') = true
  · rw [if_pos hsp]
    decide
  · rw [if_neg hsp]
    unfold pyStrip at hx
    have hx2 := mem_pyStripWith _ _ _ hx
    unfold subNonWordToSpace at hx2
    obtain ⟨y, hy, rfl⟩ := List.mem_map.mp hx2
    by_cases hwy : isWordChar y = true
    · rw [if_pos hwy]
      exact hwy
    · rw [if_neg hwy] at hsp
      exact absurd rfl hsp

/-- The first character of `cleanName s` is not an underscore. -/
theorem cleanName_head (s : Str) (c : Char) (h : (cleanName s).head? = some c) :
    (c == '_') = false := by
  unfold cleanName stripUnderscores at h
  exact pyStripWith_head (fun x => x == '_') _ c h

/-- The last character of `cleanName s` is not an underscore. -/
theorem cleanName_getLast (s : Str) (c : Char) (h : (cleanName s).getLast? = some c) :
    (c == '_') = false := by
  unfold cleanName stripUnderscores at h
  exact pyStripWith_getLast (fun x => x == '_') _ c h

/-! ### Fixed points of the normalization -/

/-- Any string of lowercase-stable word characters, with no underscore at
either end and containing `_collection`, is a fixed point of the
normalization. -/
theorem normalize_fixed (r fallback : Str)
    (hword : ∀ c ∈ r, isWordChar c = true)
    (hlower : ∀ c ∈ r, pyLowerChar c = c)
    (hhead : ∀ c, r.head? = some c → (c == '_') = false)
    (hlast : ∀ c, r.getLast? = some c → (c == '_') = false)
    (hinf : "_collection".toList <:+: r) :
    normalize_collection_name r fallback = r := by
  have hmemu : '_' ∈ r := hinf.sublist.subset (by decide)
  have hne : r ≠ [] := by
    intro h0
    rw [h0] at hmemu
    simp at hmemu
  have hempty : r.isEmpty = false := List.isEmpty_eq_false.mpr hne
  have hupper : (pyUpper r == "UNCLASSIFIED".toList) = false := by
    by_contra hb
    rw [Bool.not_eq_false] at hb
    have hequ := eq_of_beq hb
    have hmm : pyUpperChar '_' ∈ pyUpper r := List.mem_map_of_mem _ hmemu
    rw [hequ] at hmm
    have hund : pyUpperChar '_' = '_' := by decide
    rw [hund] at hmm
    exact absurd hmm (by decide)
  have hstrip : pyStrip r = r := by
    unfold pyStrip
    exact pyStripWith_eq_self_of_all _ _ (fun c hc => word_not_space c (hword c hc))
  have hsub : subNonWordToSpace r = r := by
    unfold subNonWordToSpace
    exact map_eq_self_of_all _ _ (fun c hc => by rw [if_pos (hword c hc)])
  have hrep : replaceSpaceUnderscore r = r := by
    unfold replaceSpaceUnderscore
    exact map_eq_self_of_all _ _
      (fun c hc => by rw [if_neg (by simp [word_ne_space_char c (hword c hc)])])
  have hstripU : stripUnderscores r = r := by
    unfold stripUnderscores
    exact pyStripWith_eq_self_of_ends _ _ hhead hlast
  have hclean : cleanName r = r := by
    unfold cleanName
    rw [hsub, hstrip, hrep, hstripU]
  have hlow : pyLower r = r := by
    unfold pyLower
    exact map_eq_self_of_all _ _ hlower
  have hcont : containsSub "_collection".toList r = true := decide_eq_true hinf
  have hcond : (r.isEmpty || (pyUpper r == "UNCLASSIFIED".toList)) = false :=
    Bool.or_eq_false_iff.mpr ⟨hempty, hupper⟩
  have hnot : ¬((r.isEmpty || (pyUpper r == "UNCLASSIFIED".toList)) = true) := by
    rw [hcond]
    exact Bool.false_ne_true
  unfold normalize_collection_name
  rw [hstrip, hclean, hlow]
  rw [if_neg hnot, if_neg hnot, if_pos hcont]

/-! ## Claim C8 -/

/-- Claim C8 counterexample: the normalization is not idempotent on
every string, because the fallback sentinel `unclassified_knowledge`
(returned for empty/UNCLASSIFIED answers) does not contain the
`_collection` suffix, so re-normalizing it appends the suffix. -/
theorem claim_c8_counterexample :
    normalize_collection_name [] "unclassified_knowledge".toList
      = "unclassified_knowledge".toList
    ∧ normalize_collection_name "unclassified_knowledge".toList
        "unclassified_knowledge".toList
      = "unclassified_knowledge_collection".toList
    ∧ normalize_collection_name
        (normalize_collection_name [] "unclassified_knowledge".toList)
        "unclassified_knowledge".toList
      ≠ normalize_collection_name [] "unclassified_knowledge".toList := by
  refine ⟨by decide, by decide, by decide⟩

/-- Claim C8 (amended): the normalization is idempotent on every input
whose normalization does not take the fallback branch: any non-fallback
output is a fixed point of the normalization. -/
theorem claim_c8_amended_idempotent_off_fallback (raw fallback : Str)
    (h : normalize_collection_name raw fallback ≠ fallback) :
    normalize_collection_name (normalize_collection_name raw fallback) fallback
      = normalize_collection_name raw fallback := by
  by_cases h1 : ((pyStrip raw).isEmpty
      || (pyUpper (pyStrip raw) == "UNCLASSIFIED".toList)) = true
  · exact absurd (by unfold normalize_collection_name; rw [if_pos h1]) h
  · by_cases h2 : ((cleanName (pyStrip raw)).isEmpty
        || (pyUpper (cleanName (pyStrip raw)) == "UNCLASSIFIED".toList)) = true
    · exact absurd (by unfold normalize_collection_name; rw [if_neg h1, if_pos h2]) h
    · have h2f : ((cleanName (pyStrip raw)).isEmpty
          || (pyUpper (cleanName (pyStrip raw)) == "UNCLASSIFIED".toList)) = false := by
        rcases Bool.eq_false_or_eq_true ((cleanName (pyStrip raw)).isEmpty
          || (pyUpper (cleanName (pyStrip raw)) == "UNCLASSIFIED".toList)) with hx | hx
        · exact absurd hx h2
        · exact hx
      have hne_name : cleanName (pyStrip raw) ≠ [] :=
        List.isEmpty_eq_false.mp (Bool.or_eq_false_iff.mp h2f).1
      have hword : ∀ c ∈ cleanName (pyStrip raw), isWordChar c = true :=
        fun c hc => cleanName_all_word _ c hc
      have hplword : ∀ c ∈ pyLower (cleanName (pyStrip raw)), isWordChar c = true := by
        intro c hc
        obtain ⟨x, hx, rfl⟩ := List.mem_map.mp hc
        exact pyLowerChar_word x (hword x hx)
      have hpllower : ∀ c ∈ pyLower (cleanName (pyStrip raw)), pyLowerChar c = c := by
        intro c hc
        obtain ⟨x, hx, rfl⟩ := List.mem_map.mp hc
        exact pyLowerChar_idem x
      have hplhead : ∀ c, (pyLower (cleanName (pyStrip raw))).head? = some c →
          (c == '_') = false := by
        intro c hc
        unfold pyLower at hc
        rw [List.head?_map] at hc
        obtain ⟨x, hx, hfx⟩ := Option.map_eq_some'.mp hc
        rw [← hfx]
        exact pyLowerChar_ne_underscore x (cleanName_head _ x hx)
      have hpllast : ∀ c, (pyLower (cleanName (pyStrip raw))).getLast? = some c →
          (c == '_') = false := by
        intro c hc
        unfold pyLower at hc
        rw [List.getLast?_map] at hc
        obtain ⟨x, hx, hfx⟩ := Option.map_eq_some'.mp hc
        rw [← hfx]
        exact pyLowerChar_ne_underscore x (cleanName_getLast _ x hx)
      have hplne : pyLower (cleanName (pyStrip raw)) ≠ [] := by
        unfold pyLower
        intro h0
        exact hne_name (List.map_eq_nil_iff.mp h0)
      by_cases hc : containsSub "_collection".toList (pyLower (cleanName (pyStrip raw))) = true
      · have hr : normalize_collection_name raw fallback
            = pyLower (cleanName (pyStrip raw)) := by
          unfold normalize_collection_name
          rw [if_neg h1, if_neg h2, if_pos hc]
        rw [hr]
        exact normalize_fixed _ fallback hplword hpllower hplhead hpllast
          (of_decide_eq_true hc)
      · have hr : normalize_collection_name raw fallback
            = pyLower (cleanName (pyStrip raw)) ++ "_collection".toList := by
          unfold normalize_collection_name
          rw [if_neg h1, if_neg h2, if_neg hc]
        rw [hr]
        apply normalize_fixed
        · intro c hcm
          rcases List.mem_append.mp hcm with hl | hrr
          · exact hplword c hl
          · exact (by decide : ∀ c ∈ "_collection".toList, isWordChar c = true) c hrr
        · intro c hcm
          rcases List.mem_append.mp hcm with hl | hrr
          · exact hpllower c hl
          · exact (by decide : ∀ c ∈ "_collection".toList, pyLowerChar c = c) c hrr
        · intro c hch
          obtain ⟨a, t, hn⟩ := List.exists_cons_of_ne_nil hplne
          rw [hn, List.cons_append, List.head?_cons] at hch
          injection hch with hac
          rw [← hac]
          exact hplhead a (by rw [hn]; rfl)
        · intro c hcl
          rw [getLast?_append_right _ _ (by decide)] at hcl
          have hlastn : ("_collection".toList).getLast? = some 'n' := by decide
          rw [hlastn] at hcl
          injection hcl with hcn
          rw [← hcn]
          decide
        · exact ⟨pyLower (cleanName (pyStrip raw)), [], by simp⟩

/-- Witness for C8 (amended): a concrete answer whose normalization is
not the fallback, and is a fixed point. -/
theorem claim_c8_witness :
    normalize_collection_name "Policy Docs!".toList "unclassified_knowledge".toList
      ≠ "unclassified_knowledge".toList
    ∧ normalize_collection_name
        (normalize_collection_name "Policy Docs!".toList "unclassified_knowledge".toList)
        "unclassified_knowledge".toList
      = normalize_collection_name "Policy Docs!".toList "unclassified_knowledge".toList :=
  ⟨by decide,
   claim_c8_amended_idempotent_off_fallback "Policy Docs!".toList
     "unclassified_knowledge".toList (by decide)⟩

/-! ## Loader registry (src/app/loaders/) and legacy intake
(src/app/ingestion.py load_document) -/

/-- The loader classes of the registry, in `_REGISTRY` order. -/
inductive LoaderKind
  | pdf
  | docx
  | excel
  | pptx
  | markdown
  | html
  | email
  | text
  deriving DecidableEq, Repr

/-- `SUPPORTED_EXTENSIONS` of each loader class. -/
def supportedExtensionsOf : LoaderKind → List Str
  | .pdf => [".pdf".toList]
  | .docx => [".docx".toList, ".doc".toList]
  | .excel => [".xlsx".toList, ".xls".toList, ".csv".toList]
  | .pptx => [".pptx".toList, ".ppt".toList]
  | .markdown => [".md".toList, ".markdown".toList]
  | .html => [".html".toList, ".htm".toList]
  | .email => [".eml".toList, ".msg".toList]
  | .text => [".txt".toList, ".text".toList, ".log".toList]

/-- `_REGISTRY`, order preserved (order matters: first match wins). -/
def loaderRegistry : List LoaderKind :=
  [.pdf, .docx, .excel, .pptx, .markdown, .html, .email, .text]

/-- `BaseLoader.supports`: the path's lowercased extension is in the
class extension list; the input is the path's raw suffix. -/
def supports (k : LoaderKind) (sfx : Str) : Bool :=
  (supportedExtensionsOf k).contains (pyLower sfx)

/-- `get_loader` (src/app/loaders/init module, lines 35-43): first
matching class, else a no-loader error. -/
def get_loader (sfx : Str) : Except String LoaderKind :=
  match loaderRegistry.find? (fun k => supports k sfx) with
  | some k => .ok k
  | none => .error "No loader for extension"

/-- The registry-wide `SUPPORTED_EXTENSIONS` set (modelled as the union
list; membership semantics coincide). -/
def SUPPORTED_EXTENSIONS : List Str :=
  loaderRegistry.flatMap supportedExtensionsOf

/-- The two loaders of the legacy `load_document`. -/
inductive LegacyLoader
  | pypdfKind
  | textKind
  deriving DecidableEq, Repr

/-- The legacy `load_document` in src/app/ingestion.py (lines 31-43),
still the loading step called by `ingest_files`: only `.pdf` and
`.txt`/`.text` are accepted; everything else raises
`Unsupported file type`. -/
def ingestion_load_document (sfx : Str) : Except String LegacyLoader :=
  if pyLower sfx == ".pdf".toList then .ok .pypdfKind
  else if pyLower sfx == ".txt".toList || pyLower sfx == ".text".toList then .ok .textKind
  else .error "Unsupported file type"

/-! ## Claim C5 -/

/-- Claim C5 evidence (code bug): the registry resolves a loader for
every one of the seventeen spec extensions and rejects others (sample
`.exe`), and the `/ingest` intake gate admits `.docx`; but the worker
pipeline's `ingest_files` still calls the legacy
`ingestion.load_document`, which raises an unsupported-type error for
`.docx` (and for every supported extension other than pdf/txt/text),
although the registry module documents that it replaces that function. -/
theorem claim_c5_registry_vs_legacy_loader :
    (∀ sfx ∈ SUPPORTED_EXTENSIONS, (get_loader sfx).isOk = true)
    ∧ SUPPORTED_EXTENSIONS.length = 17
    ∧ ".docx".toList ∈ SUPPORTED_EXTENSIONS
    ∧ get_loader ".docx".toList = .ok .docx
    ∧ (get_loader ".exe".toList).isOk = false
    ∧ ingestion_load_document ".docx".toList = .error "Unsupported file type"
    ∧ ingestion_load_document ".pdf".toList = .ok .pypdfKind
    ∧ ingestion_load_document ".txt".toList = .ok .textKind := by
  refine ⟨by decide, by decide, by decide, rfl, by decide, rfl, rfl, rfl⟩

/-! ## Markdown loader (src/app/loaders/markdown_loader.py) and the PDF
text-layer tier (src/app/loaders/pdf_loader.py _load_pypdf) -/

/-- The heading regex `(#{1,6})\s+(.+)` anchored to a line: 1..6 leading
hashes, then at least one whitespace, then at least one more character.
Returns the heading level (hash count) with the group-2 capture: the
remainder after the maximal whitespace run, or, when only whitespace
follows the hashes, the last whitespace character (regex backtracking). -/
def mdHeadingMatch (line : Str) : Option (Nat × Str) :=
  let j := (line.takeWhile (fun c => c == '#')).length
  let rest := line.drop j
  if 1 ≤ j ∧ j ≤ 6 then
    match rest with
    | [] => none
    | c :: cs =>
      if pyIsSpace c then
        if cs.isEmpty then none
        else if (rest.dropWhile pyIsSpace).isEmpty then
          match rest.getLast? with
          | some d => some (j, [d])
          | none => none
        else some (j, rest.dropWhile pyIsSpace)
      else none
  else none

/-- The loop state of `MarkdownLoader.load`: emitted documents, current
section, and the running line buffer. -/
structure MdState where
  documents : List Doc
  currentSection : Str
  buffer : List Str
  deriving Repr

/-- `flush_buffer`: join the buffer with newlines; emit a section unit
only when the joined content has non-blank text; always clear the
buffer. -/
def mdFlush (srcName : Str) (st : MdState) : MdState :=
  if st.buffer.isEmpty then { st with buffer := [] }
  else if (pyStrip (List.intercalate "\n".toList st.buffer)).isEmpty then
    { st with buffer := [] }
  else
    { st with
      documents := st.documents ++
        [⟨List.intercalate "\n".toList st.buffer,
          { source := some srcName, sectionName := some st.currentSection }⟩],
      buffer := [] }

/-- One line of the `MarkdownLoader.load` loop: a heading line flushes
the buffer, updates the current section to the stripped capture and
emits a heading unit; any other line is buffered. -/
def mdStep (srcName : Str) (st : MdState) (line : Str) : MdState :=
  match mdHeadingMatch line with
  | some lg =>
      { documents := (mdFlush srcName st).documents ++
          [⟨pyStrip lg.2,
            { source := some srcName, sectionName := some (pyStrip lg.2),
              heading_level := some lg.1, is_heading := true }⟩],
        currentSection := pyStrip lg.2,
        buffer := [] }
  | none => { st with buffer := st.buffer ++ [line] }

/-- `MarkdownLoader.load` before the no-headings fallback: line scan
plus final flush. -/
def mdLoadCore (srcName text : Str) : List Doc :=
  (mdFlush srcName ((text.splitOn '\n').foldl (mdStep srcName) ⟨[], [], []⟩)).documents

/-- `MarkdownLoader.load`: if the scan produced nothing, the whole file
is one unit. -/
def markdown_load (srcName text : Str) : List Doc :=
  if (mdLoadCore srcName text).isEmpty then [⟨text, { source := some srcName }⟩]
  else mdLoadCore srcName text

/-- `PDFLoader._load_pypdf`: one unit per page whose content is
`page.extract_text() or ""` (the extraction result is an input; `none`
models a `None`/absent text layer). -/
def pdf_load_pypdf (srcName : Str) (pageTexts : List (Option Str)) : List Doc :=
  pageTexts.mapIdx (fun i t =>
    ⟨t.getD [], { source := some srcName, page := some (i + 1),
                  loader := some "pypdf".toList }⟩)

/-! ## Claim C10 -/

/-- Claim C10 counterexample: an empty Markdown file makes the
no-headings fallback emit one unit whose content is the empty string,
and a PDF page with no text layer makes the pypdf tier emit a unit with
empty content. -/
theorem claim_c10_counterexample :
    (markdown_load "notes.md".toList []).map (fun d => d.content) = [[]]
    ∧ (pdf_load_pypdf "scan.pdf".toList [none]).map (fun d => d.content) = [[]]
    ∧ (markdown_load "notes.md".toList []).length = 1
    ∧ (pdf_load_pypdf "scan.pdf".toList [none]).length = 1 := by
  refine ⟨rfl, rfl, rfl, rfl⟩

/-- The non-heading units accumulated by the Markdown scan always carry
non-blank content, for any starting state satisfying the same
invariant. -/
theorem mdFlush_inv (srcName : Str) (st : MdState)
    (hst : ∀ d ∈ st.documents, d.meta.is_heading = false →
      (pyStrip d.content).isEmpty = false) :
    ∀ d ∈ (mdFlush srcName st).documents, d.meta.is_heading = false →
      (pyStrip d.content).isEmpty = false := by
  unfold mdFlush
  split_ifs with hb hc
  · exact hst
  · exact hst
  · intro d hd hh
    rcases List.mem_append.mp hd with h1 | h2
    · exact hst d h1 hh
    · rw [List.mem_singleton] at h2
      subst h2
      simp only [Bool.not_eq_true] at hc
      exact hc

/-- Invariant of the whole line scan. -/
theorem mdScan_inv (srcName : Str) (lines : List Str) (st : MdState)
    (hst : ∀ d ∈ st.documents, d.meta.is_heading = false →
      (pyStrip d.content).isEmpty = false) :
    ∀ d ∈ (lines.foldl (mdStep srcName) st).documents, d.meta.is_heading = false →
      (pyStrip d.content).isEmpty = false := by
  induction lines generalizing st with
  | nil => exact hst
  | cons line rest ih =>
    rw [List.foldl_cons]
    apply ih
    intro d hd hh
    unfold mdStep at hd
    cases hm : mdHeadingMatch line with
    | some lg =>
      rw [hm] at hd
      rcases List.mem_append.mp hd with h1 | h2
      · exact mdFlush_inv srcName st hst d h1 hh
      · rw [List.mem_singleton] at h2
        subst h2
        simp at hh
    | none =>
      rw [hm] at hd
      exact hst d hd hh

/-- Helper: mapped contents of an index-aware map whose content part
ignores the index. -/
theorem mapIdx_content (pageTexts : List (Option Str)) (f : Nat → Option Str → Doc)
    (hf : ∀ i t, (f i t).content = t.getD []) :
    (List.mapIdx f pageTexts).map (fun d => d.content)
      = pageTexts.map (fun t => t.getD []) := by
  induction pageTexts generalizing f with
  | nil => rfl
  | cons t rest ih =>
    rw [List.mapIdx_cons, List.map_cons, List.map_cons, hf 0 t,
      ih (fun i => f (i + 1)) (fun i t2 => hf (i + 1) t2)]

/-- Claim C10 (amended): every buffered (non-heading) unit of the
Markdown scan has non-blank content, while the pypdf tier emits exactly
one unit per page whose content equals the extracted page text, which
may be empty, and the Markdown no-headings fallback and degenerate
heading lines may likewise produce empty content. -/
theorem claim_c10_amended_nonempty_buffered_units
    (srcName text srcName2 : Str) (d : Doc) (pageTexts : List (Option Str)) :
    (d ∈ mdLoadCore srcName text → d.meta.is_heading = false →
      (pyStrip d.content).isEmpty = false)
    ∧ (pdf_load_pypdf srcName2 pageTexts).map (fun d => d.content)
        = pageTexts.map (fun t => t.getD []) := by
  constructor
  · intro hd hh
    unfold mdLoadCore at hd
    exact mdFlush_inv srcName _
      (mdScan_inv srcName _ _ (by intro d2 hd2; simp at hd2)) d hd hh
  · exact mapIdx_content pageTexts _ (fun i t => rfl)

/-- Witness for C10 (amended) on a concrete two-section Markdown file
and a two-page extraction result. -/
theorem claim_c10_amended_witness :
    ((⟨"Body line.".toList,
        { source := some "a.md".toList, sectionName := some "Intro".toList }⟩ : Doc)
        ∈ mdLoadCore "a.md".toList "# Intro\nBody line.".toList →
      (⟨"Body line.".toList,
        { source := some "a.md".toList, sectionName := some "Intro".toList }⟩ : Doc).meta.is_heading
          = false →
      (pyStrip (⟨"Body line.".toList,
        { source := some "a.md".toList, sectionName := some "Intro".toList }⟩ : Doc).content).isEmpty
          = false)
    ∧ (pdf_load_pypdf "b.pdf".toList [some "Page one text.".toList, none]).map
        (fun d => d.content)
        = [some "Page one text.".toList, none].map (fun t => t.getD []) :=
  claim_c10_amended_nonempty_buffered_units "a.md".toList "# Intro\nBody line.".toList
    "b.pdf".toList
    ⟨"Body line.".toList, { source := some "a.md".toList, sectionName := some "Intro".toList }⟩
    [some "Page one text.".toList, none]

/-! ## Worker loop (src/worker.py and src/scripts/ingestion_worker.py) -/

/-- One entry of the `routing` list returned by `ingest_files`. -/
structure RoutingEntry where
  file : String
  collection : String
  chunks : Nat
  deriving DecidableEq, Repr

/-- The result dict of `ingest_files`. -/
structure IngestResult where
  chunks_added : Nat
  files_processed : Nat
  routing : List RoutingEntry
  deriving DecidableEq, Repr

/-- Observable broker/filesystem/ledger actions of one task execution,
in program order. -/
inductive WorkerEvent
  | nackEvent
  | ackEvent
  | unlinkEvent
  | recordEvent (contentHash filename collectionName : String)
  deriving DecidableEq, Repr

/-- `collection = result["routing"][0].get("collection", "") if
result.get("routing") else ""`. -/
def routedCollection (result : IngestResult) : String :=
  match result.routing with
  | [] => ""
  | r :: _ => r.collection

/-- `process_one_task` of src/worker.py (lines 31-98). The task payload
supplies `filePath` and `filename`; `fileExists` is the staged-file
check; `hashResult` models `content_hash(path)` (error = unreadable
file); `ingestResult` models the whole guarded block (provider plus
`ingest_files`; error = any raised exception). The ledger `db` is the
durable idempotency store, `now` the sqlite timestamp. Returns the new
ledger and the ordered event trace (nack/ack/unlink/record). -/
def process_one_task (filePath filename : String) (fileExists : Bool)
    (hashResult : Except Unit String) (ingestResult : Except Unit IngestResult)
    (db : Ledger) (now : String) : Ledger × List WorkerEvent :=
  if filePath = "" then (db, [.nackEvent])
  else if fileExists = false then (db, [.nackEvent])
  else
    match hashResult with
    | .error _ => (db, [.nackEvent])
    | .ok fileHash =>
      if is_processed db fileHash then (db, [.unlinkEvent, .ackEvent])
      else
        match ingestResult with
        | .error _ => (db, [.nackEvent])
        | .ok result =>
          (record_processed db fileHash filename (some (routedCollection result)) now,
           [.recordEvent fileHash filename (routedCollection result),
            .ackEvent, .unlinkEvent])

/-- `process_one_task` of src/scripts/ingestion_worker.py (lines
27-87): the same decisions; on the happy path the staged file is
unlinked before the acknowledge. -/
def process_one_task_script (filePath filename : String) (fileExists : Bool)
    (hashResult : Except Unit String) (ingestResult : Except Unit IngestResult)
    (db : Ledger) (now : String) : Ledger × List WorkerEvent :=
  if filePath = "" then (db, [.nackEvent])
  else if fileExists = false then (db, [.nackEvent])
  else
    match hashResult with
    | .error _ => (db, [.nackEvent])
    | .ok fileHash =>
      if is_processed db fileHash then (db, [.unlinkEvent, .ackEvent])
      else
        match ingestResult with
        | .error _ => (db, [.nackEvent])
        | .ok result =>
          (record_processed db fileHash filename (some (routedCollection result)) now,
           [.recordEvent fileHash filename (routedCollection result),
            .unlinkEvent, .ackEvent])

/-- Recording a fingerprint makes `is_processed` true for it. -/
theorem is_processed_record_self (db : Ledger) (x fn now : String) (coll : Option String) :
    is_processed (record_processed db x fn coll now) x = true := by
  unfold record_processed
  by_cases hany : (db.any fun r => r.content_hash == x) = true
  · rw [if_pos hany]
    exact hany
  · rw [if_neg hany]
    unfold is_processed
    rw [List.any_append]
    simp

/-! ## Claim C1 -/

/-- Claim C1: on the happy path of a non-duplicate task, both worker
entry points record the fingerprint in the durable ledger strictly
before acknowledging the delivery (the trace has the record event ahead
of the ack event), and a redelivery of the same content against the
post-record ledger state - the state a crash between record and ack
leaves behind - takes the Duplicate path: it only deletes the staged
file and acknowledges, whatever its own ingestion attempt would have
returned. -/
theorem claim_c1_record_before_ack
    (filePath filename filename2 : String) (h : String) (result : IngestResult)
    (ingestResult2 : Except Unit IngestResult) (db : Ledger) (now now2 : String)
    (hpath : filePath ≠ "") (hdup : is_processed db h = false) :
    (process_one_task filePath filename true (.ok h) (.ok result) db now).2
      = [.recordEvent h filename (routedCollection result), .ackEvent, .unlinkEvent]
    ∧ (process_one_task filePath filename true (.ok h) (.ok result) db now).1
      = record_processed db h filename (some (routedCollection result)) now
    ∧ process_one_task filePath filename2 true (.ok h) ingestResult2
        (process_one_task filePath filename true (.ok h) (.ok result) db now).1 now2
      = ((process_one_task filePath filename true (.ok h) (.ok result) db now).1,
         [.unlinkEvent, .ackEvent])
    ∧ (process_one_task_script filePath filename true (.ok h) (.ok result) db now).2
      = [.recordEvent h filename (routedCollection result), .unlinkEvent, .ackEvent]
    ∧ (process_one_task_script filePath filename true (.ok h) (.ok result) db now).1
      = record_processed db h filename (some (routedCollection result)) now
    ∧ process_one_task_script filePath filename2 true (.ok h) ingestResult2
        (process_one_task_script filePath filename true (.ok h) (.ok result) db now).1 now2
      = ((process_one_task_script filePath filename true (.ok h) (.ok result) db now).1,
         [.unlinkEvent, .ackEvent]) := by
  have happy : process_one_task filePath filename true (.ok h) (.ok result) db now
      = (record_processed db h filename (some (routedCollection result)) now,
         [.recordEvent h filename (routedCollection result), .ackEvent, .unlinkEvent]) := by
    unfold process_one_task
    rw [if_neg hpath, if_neg (by simp)]
    simp [hdup]
  have happyS : process_one_task_script filePath filename true (.ok h) (.ok result) db now
      = (record_processed db h filename (some (routedCollection result)) now,
         [.recordEvent h filename (routedCollection result), .unlinkEvent, .ackEvent]) := by
    unfold process_one_task_script
    rw [if_neg hpath, if_neg (by simp)]
    simp [hdup]
  have hproc : is_processed
      (record_processed db h filename (some (routedCollection result)) now) h = true :=
    is_processed_record_self db h filename now (some (routedCollection result))
  refine ⟨by rw [happy], by rw [happy], ?_, by rw [happyS], by rw [happyS], ?_⟩
  · rw [happy]
    unfold process_one_task
    rw [if_neg hpath, if_neg (by simp)]
    simp [hproc]
  · rw [happyS]
    unfold process_one_task_script
    rw [if_neg hpath, if_neg (by simp)]
    simp [hproc]

/-- Witness for C1 at a concrete task, ledger and ingestion result. -/
theorem claim_c1_witness :
    (process_one_task "uploads/pending/t1_a.pdf" "a.pdf" true (.ok "deadbeef")
        (.ok ⟨3, 1, [⟨"a.pdf", "policy_collection", 3⟩]⟩) [] "t0").2
      = [.recordEvent "deadbeef" "a.pdf"
          (routedCollection ⟨3, 1, [⟨"a.pdf", "policy_collection", 3⟩]⟩),
         .ackEvent, .unlinkEvent]
    ∧ (process_one_task "uploads/pending/t1_a.pdf" "a.pdf" true (.ok "deadbeef")
        (.ok ⟨3, 1, [⟨"a.pdf", "policy_collection", 3⟩]⟩) [] "t0").1
      = record_processed [] "deadbeef" "a.pdf"
          (some (routedCollection ⟨3, 1, [⟨"a.pdf", "policy_collection", 3⟩]⟩)) "t0"
    ∧ process_one_task "uploads/pending/t1_a.pdf" "a.pdf" true (.ok "deadbeef")
        (.error ())
        (process_one_task "uploads/pending/t1_a.pdf" "a.pdf" true (.ok "deadbeef")
          (.ok ⟨3, 1, [⟨"a.pdf", "policy_collection", 3⟩]⟩) [] "t0").1 "t1"
      = ((process_one_task "uploads/pending/t1_a.pdf" "a.pdf" true (.ok "deadbeef")
          (.ok ⟨3, 1, [⟨"a.pdf", "policy_collection", 3⟩]⟩) [] "t0").1,
         [.unlinkEvent, .ackEvent])
    ∧ (process_one_task_script "uploads/pending/t1_a.pdf" "a.pdf" true (.ok "deadbeef")
        (.ok ⟨3, 1, [⟨"a.pdf", "policy_collection", 3⟩]⟩) [] "t0").2
      = [.recordEvent "deadbeef" "a.pdf"
          (routedCollection ⟨3, 1, [⟨"a.pdf", "policy_collection", 3⟩]⟩),
         .unlinkEvent, .ackEvent]
    ∧ (process_one_task_script "uploads/pending/t1_a.pdf" "a.pdf" true (.ok "deadbeef")
        (.ok ⟨3, 1, [⟨"a.pdf", "policy_collection", 3⟩]⟩) [] "t0").1
      = record_processed [] "deadbeef" "a.pdf"
          (some (routedCollection ⟨3, 1, [⟨"a.pdf", "policy_collection", 3⟩]⟩)) "t0"
    ∧ process_one_task_script "uploads/pending/t1_a.pdf" "a.pdf" true (.ok "deadbeef")
        (.error ())
        (process_one_task_script "uploads/pending/t1_a.pdf" "a.pdf" true (.ok "deadbeef")
          (.ok ⟨3, 1, [⟨"a.pdf", "policy_collection", 3⟩]⟩) [] "t0").1 "t1"
      = ((process_one_task_script "uploads/pending/t1_a.pdf" "a.pdf" true (.ok "deadbeef")
          (.ok ⟨3, 1, [⟨"a.pdf", "policy_collection", 3⟩]⟩) [] "t0").1,
         [.unlinkEvent, .ackEvent]) :=
  claim_c1_record_before_ack "uploads/pending/t1_a.pdf" "a.pdf" "a.pdf" "deadbeef"
    ⟨3, 1, [⟨"a.pdf", "policy_collection", 3⟩]⟩ (.error ()) [] "t0" "t1"
    (by decide) (by decide)
